import Mathlib

/-!
Verification development for `secure_cv_profile_system.py`.

The Python source is shallowly embedded as follows.

* JSON-style values (Python `str`, `int`, `list`, `dict`) become the inductive
  type `Value`.  `json.dumps` is modelled by the printer `dumps`; the text that
  is handed to the AEAD primitive is modelled by `PText`, which remembers
  whether the text is a string value passed through unchanged or the
  serialization of a structured value.
* AES-256-GCM (an external library call) is modelled from the spec as an ideal
  AEAD: a ciphertext is a symbolic `Cipher` recording the key, the nonce and
  the encrypted text, and decryption authenticates exactly when the supplied
  key and nonce are the ones the ciphertext was produced under.  Byte strings
  (key ids, key bytes, nonces) are modelled as natural numbers drawn from a
  monotone counter `ctr`, which models the OS randomness source and clock:
  fresh draws are pairwise distinct and distinct from all earlier draws.
* Python dictionaries become association lists (`alookup` / `aupdate`,
  where `aupdate` replaces in place or appends, like `d[k] = v`);
  the doubly linked `KeyChain` becomes the list of its nodes in insertion
  order together with the id of the `current` node; Python's aliasing of
  `KeyNode` objects is modelled by updating the node with the matching
  `key_id` inside the list.
-/

set_option maxHeartbeats 1000000

/-- JSON-style plaintext values handled by the program: strings, integers,
lists and dicts (the value kinds exercised by the CV data). -/
inductive Value : Type where
  | str (s : String)
  | num (n : Int)
  | list (vs : List Value)
  | dict (kvs : List (String × Value))

/-- Escaping of one character inside a JSON string literal (quote and
backslash; models `json.dumps` string escaping). -/
def escapeChar (c : Char) : String :=
  if c = '\\' then "\\\\" else if c = '"' then "\\\"" else String.singleton c

/-- Escaping of a string for inclusion in JSON output. -/
def escape (s : String) : String :=
  String.join (s.toList.map escapeChar)

mutual

/-- Modelled from the spec: `json.dumps`, the deterministic text encoding of a
structured value (Python's default separators). -/
def dumps : Value → String
  | .str s => "\"" ++ escape s ++ "\""
  | .num n => toString n
  | .list vs => "[" ++ dumpsList vs ++ "]"
  | .dict kvs => "\x7b" ++ dumpsKVs kvs ++ "\x7d"

/-- Comma-separated serialization of a list of values. -/
def dumpsList : List Value → String
  | [] => ""
  | [v] => dumps v
  | v :: vs => dumps v ++ ", " ++ dumpsList vs

/-- Comma-separated serialization of the key/value pairs of a dict. -/
def dumpsKVs : List (String × Value) → String
  | [] => ""
  | [(k, v)] => "\"" ++ escape k ++ "\": " ++ dumps v
  | (k, v) :: kvs => "\"" ++ escape k ++ "\": " ++ dumps v ++ ", " ++ dumpsKVs kvs

end

/-- The plaintext text handed to AEAD encryption: either a string value passed
through unchanged, or the JSON serialization of a structured value.  Models
`json.dumps(plaintext) if not isinstance(plaintext, str) else plaintext`
(source line 105). -/
inductive PText : Type where
  | raw (s : String)
  | ser (v : Value)

/-- The actual character string a `PText` stands for. -/
def PText.toStr : PText → String
  | .raw s => s
  | .ser v => dumps v

/-- Serialization step of `SecureCV.encrypt` (source line 105). -/
def textOf (v : Value) : PText :=
  match v with
  | .str s => .raw s
  | v => .ser v

/-- Python's `type(plaintext).__name__` for the modelled value kinds
(source line 111). -/
def typeName : Value → String
  | .str _ => "str"
  | .num _ => "int"
  | .list _ => "list"
  | .dict _ => "dict"

/-- The canonical serialization applied at load time: strings pass through,
structured values are serialized with `dumps`. -/
def canonSer (v : Value) : String := (textOf v).toStr

/-- Modelled from the spec: `json.loads` applied to a decrypted plaintext.
On the image of the serializer the round trip is exact (`json.loads ∘
json.dumps = id` for the modelled value kinds).  A `raw` string — reachable
only when an envelope's type tag disagrees with its encrypted content, which
no program path produces — is modelled as a parse failure (in Python such a
call raises and is caught by the `except` in `decrypt`). -/
def jsonLoadsP : PText → Option Value
  | .raw _ => none
  | .ser v => some v

/-- Modelled from the spec: an ideal AES-256-GCM ciphertext, recording
symbolically the key and nonce it was produced under and the encrypted
text.  (The real library call is external to the repository.) -/
structure Cipher : Type where
  key : Nat
  nonce : Nat
  text : PText

/-- The encrypted envelope stored per field: `(nonce, ciphertext, type)`
(source lines 108-112; base64 wrapping of the binary parts is a bijection
and is left implicit). -/
structure Envelope : Type where
  nonce : Nat
  ciphertext : Cipher
  type : String

/-- Modelled from the spec: ideal AEAD decryption.  Authentication succeeds
exactly when the supplied key and the envelope nonce are the ones the
ciphertext was produced under, and then yields the encrypted text exactly;
any other combination fails uniformly. -/
def aesgcmDecrypt (key : Nat) (nonce : Nat) (ct : Cipher) : Option PText :=
  if ct.key = key ∧ ct.nonce = nonce then some ct.text else none

/-- `KeyNode.__init__` (source lines 14-21): id, key bytes, timestamp,
revocation flag and the set of fields encrypted under this key (modelled as a
duplicate-free list).  The `prev`/`next` pointers are represented by the
node's position in `KeyChain.nodes`. -/
structure KeyNode : Type where
  key_id : Nat
  key_bytes : Nat
  timestamp : Nat
  revoked : Bool
  encrypted_fields : List String
deriving DecidableEq

/-- `KeyChain.__init__` (source lines 25-30): the doubly linked list is
modelled by `nodes` in insertion order (head first, tail last); `current`
holds the id of the current node; `key_map` is modelled by lookup in `nodes`;
`size` is `nodes.length`.  `ctr` models the OS randomness source and clock
(fresh draws are distinct from every earlier draw). -/
structure KeyChain : Type where
  nodes : List KeyNode
  current : Option Nat
  ctr : Nat
deriving DecidableEq

/-- One fresh draw from the randomness/clock source. -/
def KeyChain.fresh (c : KeyChain) : Nat × KeyChain :=
  (c.ctr, { c with ctr := c.ctr + 1 })

/-- Lookup in `key_map` (source line 29): the first node in insertion order
with the given id. -/
def KeyChain.findNode (c : KeyChain) (key_id : Nat) : Option KeyNode :=
  c.nodes.find? (fun n => n.key_id == key_id)

/-- `KeyChain.create_key` (source lines 32-48): draw a fresh id, fresh key
bytes and the creation timestamp, append the node at the tail, make it
current. -/
def KeyChain.create_key (c : KeyChain) : KeyNode × KeyChain :=
  let p1 := c.fresh
  let p2 := p1.2.fresh
  let p3 := p2.2.fresh
  let node : KeyNode :=
    { key_id := p1.1, key_bytes := p2.1, timestamp := p3.1,
      revoked := false, encrypted_fields := [] }
  (node, { p3.2 with nodes := p3.2.nodes ++ [node], current := some p1.1 })

/-- `KeyChain.get_key_bytes` (source lines 50-55): the secret, only for a
known, non-revoked id. -/
def KeyChain.get_key_bytes (c : KeyChain) (key_id : Nat) : Option Nat :=
  match c.findNode key_id with
  | some node => if node.revoked = false then some node.key_bytes else none
  | none => none

/-- `KeyChain.get_node` (source lines 57-59). -/
def KeyChain.get_node (c : KeyChain) (key_id : Nat) : Option KeyNode :=
  c.findNode key_id

/-- `KeyChain.revoke_key` (source lines 61-68): if the id is known, set the
`revoked` flag and overwrite the node's `timestamp` with the current time
(line 66), reporting success; otherwise report failure. -/
def KeyChain.revoke_key (c : KeyChain) (key_id : Nat) : Bool × KeyChain :=
  match c.findNode key_id with
  | some _ =>
      let p := c.fresh
      (true, { p.2 with nodes := p.2.nodes.map (fun n =>
        if n.key_id == key_id then { n with revoked := true, timestamp := p.1 } else n) })
  | none => (false, c)

/-- Association-list lookup, modelling Python `dict.get` / `d[k]`. -/
def alookup {α : Type} (l : List (String × α)) (k : String) : Option α :=
  (l.find? (fun p => p.1 == k)).map Prod.snd

/-- Association-list update, modelling Python `d[k] = v` (replace in place if
the key is present — dict keys are unique, so at most one entry can match —
else append at the end, preserving insertion order). -/
def aupdate {α : Type} (l : List (String × α)) (k : String) (v : α) :
    List (String × α) :=
  match l with
  | [] => [(k, v)]
  | p :: ps => if p.1 == k then (k, v) :: ps else p :: aupdate ps k v

/-- `set.add` on the modelled field set. -/
def insertField (f : String) (l : List String) : List String :=
  if f ∈ l then l else l ++ [f]

/-- `SecureCV.__init__` state (source lines 94-97). -/
structure SecureCV : Type where
  keys : KeyChain
  encrypted : List (String × Envelope)
  field_key_map : List (String × Nat)

/-- A freshly constructed `SecureCV()`. -/
def SecureCV.init : SecureCV :=
  { keys := { nodes := [], current := none, ctr := 0 },
    encrypted := [], field_key_map := [] }

/-- `SecureCV.encrypt` (source lines 99-112): draw a fresh nonce, serialize
the value, AEAD-encrypt, and return the envelope together with the state
(the state is threaded only because the nonce is drawn from the randomness
source). -/
def SecureCV.encrypt (cv : SecureCV) (plaintext : Value) (key : Nat) :
    Envelope × SecureCV :=
  let p := cv.keys.fresh
  ({ nonce := p.1,
     ciphertext := { key := key, nonce := p.1, text := textOf plaintext },
     type := typeName plaintext },
   { cv with keys := p.2 })

/-- `SecureCV.decrypt` (source lines 114-128): AEAD-decrypt; on success parse
structured values back with `json.loads` when the type tag says so, else
return the plaintext string; every failure (authentication, parse) is caught
by the `except` and becomes the uniform `none`. -/
def SecureCV.decrypt (encrypted : Envelope) (key : Nat) : Option Value :=
  match aesgcmDecrypt key encrypted.nonce encrypted.ciphertext with
  | none => none
  | some text =>
      if encrypted.type = "list" ∨ encrypted.type = "dict" then
        match jsonLoadsP text with
        | some v => some v
        | none => none
      else some (.str text.toStr)

/-- `SecureCV.get_field` (source lines 160-165): look up the field's envelope
and attempt decryption with the caller-supplied key bytes. -/
def SecureCV.get_field (cv : SecureCV) (field : String) (key : Nat) :
    Option Value :=
  match alookup cv.encrypted field with
  | none => none
  | some env => SecureCV.decrypt env key

/-- Body of one iteration of the `load_cv` loop once the key is chosen
(source lines 151-155): record the field in the chosen node's
`encrypted_fields`, encrypt the value, store envelope and key id.  `pick` is
the chosen node together with the registry state after choosing it. -/
def loadStep (cv : SecureCV) (fv : String × Value) (pick : KeyNode × KeyChain) :
    SecureCV :=
  let keys2 : KeyChain := { pick.2 with nodes := pick.2.nodes.map (fun n =>
      if n.key_id == pick.1.key_id then
        { n with encrypted_fields := insertField fv.1 n.encrypted_fields }
      else n) }
  let pe := SecureCV.encrypt { cv with keys := keys2 } fv.2 pick.1.key_bytes
  { pe.2 with
    encrypted := aupdate pe.2.encrypted fv.1 pe.1,
    field_key_map := aupdate pe.2.field_key_map fv.1 pick.1.key_id }

/-- One iteration of the `load_cv` loop (source lines 142-155): pick the key
(fresh per field in `multi` mode, else the registry's current key, creating
one only if none exists), then run `loadStep`.  The `findNode`-fails fallback
in the non-multi branch is unreachable: `current` always resolves
(`KeyChain.Inv`); the source dereferences the node pointer directly. -/
def SecureCV.loadField (mode : String) (cv : SecureCV) (fv : String × Value) :
    SecureCV :=
  loadStep cv fv
    (if mode = "multi" then cv.keys.create_key
     else
       match cv.keys.current with
       | none => cv.keys.create_key
       | some cur =>
           match cv.keys.findNode cur with
           | some node => (node, cv.keys)
           | none => cv.keys.create_key)

/-- `SecureCV.load_cv` (source lines 130-158): encrypt every field of the
input mapping in order.  The `isinstance` guard is a type-level precondition
here (the input is a mapping by construction). -/
def SecureCV.load_cv (cv : SecureCV) (cv_dict : List (String × Value))
    (mode : String) : SecureCV :=
  cv_dict.foldl (SecureCV.loadField mode) cv

/-- `SecureCV.rotate_field_key` (source lines 167-199).  Returns the new key
id (or `none` on failure) together with the resulting state.  The
`field_key_map`-missing early return is unreachable for states satisfying
the field→key consistency invariant (the source raises `KeyError` there,
equally without mutating anything). -/
def SecureCV.rotate_field_key (cv : SecureCV) (field : String) :
    Option Nat × SecureCV :=
  match alookup cv.encrypted field with
  | none => (none, cv)
  | some env =>
    match alookup cv.field_key_map field with
    | none => (none, cv)
    | some old_key_id =>
      match cv.keys.get_key_bytes old_key_id with
      | none => (none, cv)
      | some old_key =>
        match SecureCV.decrypt env old_key with
        | none => (none, cv)
        | some plaintext =>
          let pc := cv.keys.create_key
          let new_node := pc.1
          let pe := SecureCV.encrypt { cv with keys := pc.2 } plaintext new_node.key_bytes
          let cv2 : SecureCV := { pe.2 with
            encrypted := aupdate pe.2.encrypted field pe.1,
            field_key_map := aupdate pe.2.field_key_map field new_node.key_id }
          let keys2 : KeyChain := { cv2.keys with nodes := cv2.keys.nodes.map (fun n =>
            if n.key_id == old_key_id then
              { n with encrypted_fields := n.encrypted_fields.filter (fun x => !(x == field)) }
            else if n.key_id == new_node.key_id then
              { n with encrypted_fields := insertField field n.encrypted_fields }
            else n) }
          (some new_node.key_id, { cv2 with keys := keys2 })

/-- Whether the `current` pointer resolves in `key_map`. -/
def KeyChain.currentOk (c : KeyChain) : Bool :=
  match c.current with
  | some kid => (c.findNode kid).isSome
  | none => true

/-- Registry invariant: every stored id and secret was drawn from the
randomness source (hence is below the counter), and the `current` pointer
resolves.  Holds for the empty chain and is preserved by every operation. -/
def KeyChain.Inv (c : KeyChain) : Prop :=
  (∀ n ∈ c.nodes, n.key_id < c.ctr ∧ n.key_bytes < c.ctr) ∧ c.currentOk = true

/-- The mutating operations of the system, for stating properties that hold
after any sequence of further operations. -/
inductive Op : Type where
  | createKey : Op
  | revokeKey (key_id : Nat) : Op
  | loadCv (cv_dict : List (String × Value)) (mode : String) : Op
  | rotateFieldKey (field : String) : Op

/-- Apply one operation to the state. -/
def applyOp (cv : SecureCV) (op : Op) : SecureCV :=
  match op with
  | .createKey => { cv with keys := (cv.keys.create_key).2 }
  | .revokeKey kid => { cv with keys := (cv.keys.revoke_key kid).2 }
  | .loadCv d m => cv.load_cv d m
  | .rotateFieldKey f => (cv.rotate_field_key f).2

/-- Apply a sequence of operations. -/
def applyOps (cv : SecureCV) (ops : List Op) : SecureCV :=
  ops.foldl applyOp cv

/-- Observable result of decrypting an honestly produced envelope with the
key it was encrypted under: structured values come back parsed, strings come
back unchanged, any other value kind comes back as its serialization
string. -/
def roundtripVal (v : Value) : Value :=
  if typeName v = "list" ∨ typeName v = "dict" then v else Value.str (canonSer v)

/-- An envelope whose type tag is consistent with its encrypted content, as
every envelope produced by `SecureCV.encrypt` is. -/
def Envelope.honestB (e : Envelope) : Bool :=
  match e.ciphertext.text with
  | .raw _ => e.type == "str"
  | .ser v => e.type == typeName v && !(typeName v == "str")

/-- Node transformations that keep everything except the protected-field
bookkeeping. -/
def NodeMapT (g : KeyNode → KeyNode) : Prop :=
  ∀ n, (g n).key_id = n.key_id ∧ (g n).key_bytes = n.key_bytes ∧
    (g n).timestamp = n.timestamp ∧ (g n).revoked = n.revoked

/-- Node transformations that keep ids and key bytes and never clear the
revocation flag. -/
def NodeMapR (g : KeyNode → KeyNode) : Prop :=
  ∀ n, (g n).key_id = n.key_id ∧ (g n).key_bytes = n.key_bytes ∧
    (n.revoked = true → (g n).revoked = true)

/-- How every operation changes the node list: existing nodes are rewritten
by an id-, bytes- and revocation-preserving transformation, new nodes are
appended at the tail. -/
def Evolves (old new : List KeyNode) : Prop :=
  ∃ g tail, NodeMapR g ∧ new = old.map g ++ tail

/-- `Evolves` with the stronger `NodeMapT` (no revocation-flag change, no
timestamp change): the shape of every non-revoking operation. -/
def EvolvesT (old new : List KeyNode) : Prop :=
  ∃ g tail, NodeMapT g ∧ new = old.map g ++ tail


/-- The node-bookkeeping rewrite performed by `rotate_field_key` (source
lines 193-196): the old key's record loses the field, the new key's record
gains it. -/
def rotMap (oldId newId : Nat) (f : String) (n : KeyNode) : KeyNode :=
  if n.key_id == oldId then
    { n with encrypted_fields := n.encrypted_fields.filter (fun x => !(x == f)) }
  else if n.key_id == newId then
    { n with encrypted_fields := insertField f n.encrypted_fields }
  else n

/-- The envelope produced by `SecureCV.encrypt` for value `v` under key bytes
`kb` with nonce `no`. -/
def encEnv (kb no : Nat) (v : Value) : Envelope :=
  { nonce := no, ciphertext := { key := kb, nonce := no, text := textOf v },
    type := typeName v }

instance (c : KeyChain) : Decidable c.Inv :=
  inferInstanceAs
    (Decidable ((∀ n ∈ c.nodes, n.key_id < c.ctr ∧ n.key_bytes < c.ctr) ∧ c.currentOk = true))

/-- Example state for concrete instantiations: one field `"a"` loaded in
`single` mode from a fresh vault. -/
def cvExample : SecureCV := SecureCV.init.load_cv [("a", Value.str "x")] "single"

/-- The envelope stored for `"a"` in `cvExample`. -/
def envExample : Envelope :=
  { nonce := 3, ciphertext := { key := 1, nonce := 3, text := PText.raw "x" },
    type := "str" }

/-- `cvExample` with its only key revoked (the key stays current). -/
def cvRevExample : SecureCV :=
  { cvExample with keys := ((cvExample.keys).revoke_key 0).2 }

/-- Example state: fields `"a"` and `"b"` loaded in `single` mode (one shared
key). -/
def cvExample2 : SecureCV :=
  SecureCV.init.load_cv [("a", Value.str "x"), ("b", Value.str "y")] "single"

/-- The key record shared by `"a"` and `"b"` in `cvExample2`. -/
def nodeExample : KeyNode :=
  { key_id := 0, key_bytes := 1, timestamp := 2, revoked := false,
    encrypted_fields := ["a", "b"] }

/-- The key record of `cvExample`. -/
def nodeExampleA : KeyNode :=
  { key_id := 0, key_bytes := 1, timestamp := 2, revoked := false,
    encrypted_fields := ["a"] }

/-- The (revoked) key record of `cvRevExample`. -/
def nodeRevExample : KeyNode :=
  { key_id := 0, key_bytes := 1, timestamp := 4, revoked := true,
    encrypted_fields := ["a"] }

/-! ### Association-list lemmas -/

theorem alookup_nil {α : Type} (k : String) : alookup ([] : List (String × α)) k = none := rfl

theorem alookup_cons {α : Type} (x : String × α) (xs : List (String × α)) (f : String) :
    alookup (x :: xs) f = if x.1 == f then some x.2 else alookup xs f := by
  unfold alookup
  rw [List.find?_cons]
  cases h : (x.1 == f) <;> simp [h]

theorem alookup_aupdate_self {α : Type} (l : List (String × α)) (k : String) (v : α) :
    alookup (aupdate l k v) k = some v := by
  induction l with
  | nil => simp [aupdate, alookup_cons]
  | cons p ps ih =>
      rw [aupdate]
      by_cases hp : p.1 = k
      · rw [if_pos (by simpa using hp), alookup_cons]
        simp
      · rw [if_neg (by simpa using hp), alookup_cons,
            if_neg (by simpa using hp)]
        exact ih

theorem alookup_aupdate_ne {α : Type} (l : List (String × α)) (k f : String) (v : α)
    (h : f ≠ k) :
    alookup (aupdate l k v) f = alookup l f := by
  have hkf : ¬ ((k == f) = true) := by simpa using Ne.symm h
  induction l with
  | nil => simp [aupdate, alookup_cons, hkf]
  | cons p ps ih =>
      rw [aupdate]
      by_cases hp : p.1 = k
      · rw [if_pos (by simpa using hp), alookup_cons, alookup_cons,
            if_neg hkf, if_neg (by simpa using (hp ▸ fun he => h he.symm : ¬ p.1 = f))]
      · rw [if_neg (by simpa using hp), alookup_cons, alookup_cons]
        by_cases hf : p.1 = f
        · rw [if_pos (by simpa using hf), if_pos (by simpa using hf)]
        · rw [if_neg (by simpa using hf), if_neg (by simpa using hf)]
          exact ih

theorem mem_aupdate {α : Type} {l : List (String × α)} {k : String} {v : α} {p : String × α}
    (h : p ∈ aupdate l k v) : p ∈ l ∨ p = (k, v) := by
  induction l with
  | nil => simp [aupdate] at h; simp [h]
  | cons q qs ih =>
      rw [aupdate] at h
      by_cases hq : q.1 = k
      · rw [if_pos (by simpa using hq)] at h
        rcases List.mem_cons.mp h with h1 | h1
        · exact Or.inr h1
        · exact Or.inl (List.mem_cons_of_mem _ h1)
      · rw [if_neg (by simpa using hq)] at h
        rcases List.mem_cons.mp h with h1 | h1
        · exact Or.inl (by simp [h1])
        · rcases ih h1 with h2 | h2
          · exact Or.inl (List.mem_cons_of_mem _ h2)
          · exact Or.inr h2

theorem alookup_mem {α : Type} {l : List (String × α)} {k : String} {v : α}
    (h : alookup l k = some v) : (k, v) ∈ l := by
  induction l with
  | nil => simp [alookup] at h
  | cons p ps ih =>
      rw [alookup_cons] at h
      by_cases hp : p.1 = k
      · rw [if_pos (by simpa using hp)] at h
        have hv : p.2 = v := by injection h
        have hkv : (k, v) = p := by
          cases p with
          | mk a b =>
              simp only at hp hv
              rw [hp, hv]
        rw [hkv]
        exact List.mem_cons_self p ps
      · rw [if_neg (by simpa using hp)] at h
        exact List.mem_cons_of_mem _ (ih h)

/-! ### Node-list evolution framework -/

theorem find_nodes_map_keyid (l : List KeyNode) (g : KeyNode → KeyNode) (kid : Nat)
    (hg : ∀ n, (g n).key_id = n.key_id) :
    (l.map g).find? (fun n => n.key_id == kid) =
      (l.find? (fun n => n.key_id == kid)).map g := by
  rw [List.find?_map]
  have hpred : ((fun n => n.key_id == kid) ∘ g) = (fun n : KeyNode => n.key_id == kid) := by
    funext n
    simp [Function.comp, hg n]
  rw [hpred]

theorem NodeMapT.toR {g : KeyNode → KeyNode} (h : NodeMapT g) : NodeMapR g :=
  fun n => ⟨(h n).1, (h n).2.1, fun hr => ((h n).2.2.2).symm ▸ hr⟩

theorem EvolvesT.toEvolves {old new : List KeyNode} (h : EvolvesT old new) :
    Evolves old new := by
  obtain ⟨g, tail, hg, rfl⟩ := h
  exact ⟨g, tail, hg.toR, rfl⟩

theorem evolves_refl (l : List KeyNode) : Evolves l l :=
  ⟨id, [], fun n => ⟨Eq.refl _, Eq.refl _, fun h => h⟩, by simp⟩

theorem evolvesT_refl (l : List KeyNode) : EvolvesT l l :=
  ⟨id, [], fun n => ⟨Eq.refl _, Eq.refl _, Eq.refl _, Eq.refl _⟩, by simp⟩

theorem evolves_trans {a b c : List KeyNode} (h1 : Evolves a b) (h2 : Evolves b c) :
    Evolves a c := by
  obtain ⟨g1, t1, hg1, rfl⟩ := h1
  obtain ⟨g2, t2, hg2, rfl⟩ := h2
  refine ⟨g2 ∘ g1, t1.map g2 ++ t2, ?_, by simp⟩
  intro n
  exact ⟨by simp [Function.comp, (hg2 (g1 n)).1, (hg1 n).1],
         by simp [Function.comp, (hg2 (g1 n)).2.1, (hg1 n).2.1],
         fun h => (hg2 (g1 n)).2.2 ((hg1 n).2.2 h)⟩

theorem evolvesT_trans {a b c : List KeyNode} (h1 : EvolvesT a b) (h2 : EvolvesT b c) :
    EvolvesT a c := by
  obtain ⟨g1, t1, hg1, rfl⟩ := h1
  obtain ⟨g2, t2, hg2, rfl⟩ := h2
  refine ⟨g2 ∘ g1, t1.map g2 ++ t2, ?_, by simp⟩
  intro n
  exact ⟨by simp [Function.comp, (hg2 (g1 n)).1, (hg1 n).1],
         by simp [Function.comp, (hg2 (g1 n)).2.1, (hg1 n).2.1],
         by simp [Function.comp, (hg2 (g1 n)).2.2.1, (hg1 n).2.2.1],
         by simp [Function.comp, (hg2 (g1 n)).2.2.2, (hg1 n).2.2.2]⟩

theorem evolves_find {old new : List KeyNode} {kid : Nat} {n : KeyNode}
    (h : Evolves old new) (hf : old.find? (fun m => m.key_id == kid) = some n) :
    ∃ n2, new.find? (fun m => m.key_id == kid) = some n2 ∧
      n2.key_id = n.key_id ∧ n2.key_bytes = n.key_bytes ∧
      (n.revoked = true → n2.revoked = true) := by
  obtain ⟨g, tail, hg, rfl⟩ := h
  refine ⟨g n, ?_, (hg n).1, (hg n).2.1, (hg n).2.2⟩
  rw [List.find?_append, find_nodes_map_keyid _ _ _ (fun m => (hg m).1), hf]
  rfl

theorem evolvesT_find {old new : List KeyNode} {kid : Nat} {n : KeyNode}
    (h : EvolvesT old new) (hf : old.find? (fun m => m.key_id == kid) = some n) :
    ∃ n2, new.find? (fun m => m.key_id == kid) = some n2 ∧
      n2.key_id = n.key_id ∧ n2.key_bytes = n.key_bytes ∧
      n2.timestamp = n.timestamp ∧ n2.revoked = n.revoked := by
  obtain ⟨g, tail, hg, rfl⟩ := h
  refine ⟨g n, ?_, (hg n).1, (hg n).2.1, (hg n).2.2.1, (hg n).2.2.2⟩
  rw [List.find?_append, find_nodes_map_keyid _ _ _ (fun m => (hg m).1), hf]
  rfl


/-! ### Anatomy of the operations -/

theorem create_key_spec (c : KeyChain) :
    (c.create_key).1 =
      { key_id := c.ctr, key_bytes := c.ctr + 1, timestamp := c.ctr + 2,
        revoked := false, encrypted_fields := [] } ∧
    (c.create_key).2 =
      { nodes := c.nodes ++ [(c.create_key).1], current := some c.ctr, ctr := c.ctr + 3 } :=
  ⟨rfl, rfl⟩

theorem create_key_nodes (c : KeyChain) :
    ((c.create_key).2).nodes = c.nodes ++ [(c.create_key).1] := rfl

theorem loadStep_spec (cv : SecureCV) (fv : String × Value) (pick : KeyNode × KeyChain) :
    (loadStep cv fv pick).keys =
      { nodes := pick.2.nodes.map (fun n =>
          if n.key_id == pick.1.key_id then
            { n with encrypted_fields := insertField fv.1 n.encrypted_fields }
          else n),
        current := pick.2.current, ctr := pick.2.ctr + 1 } ∧
    (loadStep cv fv pick).encrypted =
      aupdate cv.encrypted fv.1
        { nonce := pick.2.ctr,
          ciphertext := { key := pick.1.key_bytes, nonce := pick.2.ctr, text := textOf fv.2 },
          type := typeName fv.2 } ∧
    (loadStep cv fv pick).field_key_map =
      aupdate cv.field_key_map fv.1 pick.1.key_id :=
  ⟨rfl, rfl, rfl⟩

theorem loadField_eq_multi (cv : SecureCV) (fv : String × Value) :
    SecureCV.loadField "multi" cv fv = loadStep cv fv cv.keys.create_key := by
  simp [SecureCV.loadField]

theorem loadField_eq_nocur {mode : String} (cv : SecureCV) (fv : String × Value)
    (hm : mode ≠ "multi") (hc : cv.keys.current = none) :
    SecureCV.loadField mode cv fv = loadStep cv fv cv.keys.create_key := by
  simp [SecureCV.loadField, if_neg hm, hc]

theorem loadField_eq_dangling {mode : String} {cur : Nat} (cv : SecureCV)
    (fv : String × Value) (hm : mode ≠ "multi") (hc : cv.keys.current = some cur)
    (hf : cv.keys.findNode cur = none) :
    SecureCV.loadField mode cv fv = loadStep cv fv cv.keys.create_key := by
  simp [SecureCV.loadField, if_neg hm, hc, hf]

theorem loadField_eq_reuse {mode : String} {cur : Nat} {node : KeyNode} (cv : SecureCV)
    (fv : String × Value) (hm : mode ≠ "multi") (hc : cv.keys.current = some cur)
    (hf : cv.keys.findNode cur = some node) :
    SecureCV.loadField mode cv fv = loadStep cv fv (node, cv.keys) := by
  simp [SecureCV.loadField, if_neg hm, hc, hf]

/-- Every `loadField` call is a `loadStep` on either a freshly created key or
the resolved current key. -/
theorem loadField_split (mode : String) (cv : SecureCV) (fv : String × Value) :
    SecureCV.loadField mode cv fv = loadStep cv fv cv.keys.create_key ∨
    ∃ cur node, mode ≠ "multi" ∧ cv.keys.current = some cur ∧
      cv.keys.findNode cur = some node ∧
      SecureCV.loadField mode cv fv = loadStep cv fv (node, cv.keys) := by
  by_cases hm : mode = "multi"
  · subst hm
    exact Or.inl (loadField_eq_multi cv fv)
  · cases hc : cv.keys.current with
    | none => exact Or.inl (loadField_eq_nocur cv fv hm hc)
    | some cur =>
        cases hf : cv.keys.findNode cur with
        | none => exact Or.inl (loadField_eq_dangling cv fv hm hc hf)
        | some node => exact Or.inr ⟨cur, node, hm, rfl, hf, loadField_eq_reuse cv fv hm hc hf⟩

/-! ### Per-operation evolution lemmas -/

theorem evolvesT_append (l t : List KeyNode) : EvolvesT l (l ++ t) :=
  ⟨id, t, fun n => ⟨Eq.refl _, Eq.refl _, Eq.refl _, Eq.refl _⟩, by simp⟩

theorem evolvesT_map (l : List KeyNode) (g : KeyNode → KeyNode) (hg : NodeMapT g) :
    EvolvesT l (l.map g) :=
  ⟨g, [], hg, by simp⟩

theorem evolvesT_map_append (l t : List KeyNode) (g : KeyNode → KeyNode) (hg : NodeMapT g) :
    EvolvesT l ((l ++ t).map g) :=
  ⟨g, t.map g, hg, by simp⟩

theorem evolvesT_create (c : KeyChain) : EvolvesT c.nodes ((c.create_key).2).nodes :=
  evolvesT_append c.nodes [(c.create_key).1]

/-- The bookkeeping map used when a field is added to a node's
protected-field set keeps everything else. -/
theorem nodeMapT_addField (kid : Nat) (f : String) :
    NodeMapT (fun n => if n.key_id == kid then
      { n with encrypted_fields := insertField f n.encrypted_fields } else n) := by
  intro n
  by_cases h : (n.key_id == kid) = true <;> simp [h]

/-- The bookkeeping map used by `rotate_field_key` keeps everything except
protected-field sets. -/
theorem nodeMapT_rotateBookkeeping (oldId newId : Nat) (f : String) :
    NodeMapT (fun n => if n.key_id == oldId then
      { n with encrypted_fields := n.encrypted_fields.filter (fun x => !(x == f)) }
    else if n.key_id == newId then
      { n with encrypted_fields := insertField f n.encrypted_fields }
    else n) := by
  intro n
  by_cases h1 : (n.key_id == oldId) = true
  · simp [h1]
  · by_cases h2 : (n.key_id == newId) = true <;> simp [h1, h2]

theorem evolves_revoke (c : KeyChain) (kid : Nat) :
    Evolves c.nodes ((c.revoke_key kid).2).nodes := by
  unfold KeyChain.revoke_key
  cases h : c.findNode kid with
  | none => simpa [h] using evolves_refl c.nodes
  | some n =>
      simp only [h]
      refine ⟨fun m => if m.key_id == kid then
          { m with revoked := true, timestamp := (c.fresh).1 } else m, [], ?_, ?_⟩
      · intro m
        by_cases hm : (m.key_id == kid) = true <;> simp [hm]
      · simp [KeyChain.fresh]

theorem evolvesT_loadStep_create (cv : SecureCV) (fv : String × Value) :
    EvolvesT cv.keys.nodes ((loadStep cv fv cv.keys.create_key).keys).nodes := by
  rw [(loadStep_spec cv fv cv.keys.create_key).1]
  rw [show ((cv.keys.create_key).2).nodes = cv.keys.nodes ++ [(cv.keys.create_key).1] from rfl]
  exact evolvesT_map_append _ _ _ (nodeMapT_addField _ _)

theorem evolvesT_loadStep_reuse (cv : SecureCV) (fv : String × Value) (node : KeyNode) :
    EvolvesT cv.keys.nodes ((loadStep cv fv (node, cv.keys)).keys).nodes := by
  rw [(loadStep_spec cv fv (node, cv.keys)).1]
  exact evolvesT_map _ _ (nodeMapT_addField _ _)

theorem evolvesT_loadField (mode : String) (cv : SecureCV) (fv : String × Value) :
    EvolvesT cv.keys.nodes ((SecureCV.loadField mode cv fv).keys).nodes := by
  rcases loadField_split mode cv fv with h | ⟨cur, node, _, _, _, h⟩
  · rw [h]; exact evolvesT_loadStep_create cv fv
  · rw [h]; exact evolvesT_loadStep_reuse cv fv node

theorem evolvesT_load_cv (cv : SecureCV) (l : List (String × Value)) (mode : String) :
    EvolvesT cv.keys.nodes ((cv.load_cv l mode).keys).nodes := by
  induction l generalizing cv with
  | nil => exact evolvesT_refl _
  | cons fv l ih =>
      exact evolvesT_trans (evolvesT_loadField mode cv fv) (ih (SecureCV.loadField mode cv fv))

theorem evolvesT_rotate (cv : SecureCV) (f : String) :
    EvolvesT cv.keys.nodes (((cv.rotate_field_key f).2).keys).nodes := by
  unfold SecureCV.rotate_field_key
  split
  · exact evolvesT_refl _
  · split
    · exact evolvesT_refl _
    · split
      · exact evolvesT_refl _
      · split
        · exact evolvesT_refl _
        · exact evolvesT_map_append _ _ _ (nodeMapT_rotateBookkeeping _ _ _)

theorem evolves_applyOp (cv : SecureCV) (op : Op) :
    Evolves cv.keys.nodes ((applyOp cv op).keys).nodes := by
  cases op with
  | createKey => exact (evolvesT_create cv.keys).toEvolves
  | revokeKey kid => exact evolves_revoke cv.keys kid
  | loadCv d m => exact (evolvesT_load_cv cv d m).toEvolves
  | rotateFieldKey f => exact (evolvesT_rotate cv f).toEvolves

theorem evolves_applyOps (cv : SecureCV) (ops : List Op) :
    Evolves cv.keys.nodes ((applyOps cv ops).keys).nodes := by
  induction ops generalizing cv with
  | nil => exact evolves_refl _
  | cons op ops ih => exact evolves_trans (evolves_applyOp cv op) (ih (applyOp cv op))

/-! ### Invariant preservation -/

theorem findNode_create_new (c : KeyChain)
    (hb : ∀ n ∈ c.nodes, n.key_id < c.ctr) :
    ((c.create_key).2).findNode c.ctr = some (c.create_key).1 := by
  unfold KeyChain.findNode
  rw [create_key_nodes, List.find?_append]
  have h1 : c.nodes.find? (fun n => n.key_id == c.ctr) = none := by
    rw [List.find?_eq_none]
    intro n hn
    simp only [beq_iff_eq]
    exact fun he => absurd he (Nat.ne_of_lt (hb n hn))
  rw [h1]
  simp [List.find?_cons, show (c.create_key).1.key_id = c.ctr from rfl]

theorem currentOk_none {c : KeyChain} (h : c.current = none) : c.currentOk = true := by
  unfold KeyChain.currentOk
  rw [h]

theorem currentOk_some {c : KeyChain} {kid : Nat} (h : c.current = some kid) :
    c.currentOk = (c.findNode kid).isSome := by
  unfold KeyChain.currentOk
  rw [h]

theorem inv_create (c : KeyChain) (h : c.Inv) : ((c.create_key).2).Inv := by
  obtain ⟨hb, _⟩ := h
  constructor
  · intro n hn
    rw [create_key_nodes] at hn
    rcases List.mem_append.mp hn with h1 | h1
    · have h2 := hb n h1
      have hctr : ((c.create_key).2).ctr = c.ctr + 3 := rfl
      rw [hctr]
      omega
    · have h2 : n = (c.create_key).1 := by simpa using h1
      subst h2
      constructor
      · show c.ctr < c.ctr + 3
        omega
      · show c.ctr + 1 < c.ctr + 3
        omega
  · rw [currentOk_some (show ((c.create_key).2).current = some c.ctr from rfl),
        findNode_create_new c (fun n hn => (hb n hn).1)]
    rfl

theorem inv_map (c : KeyChain) (g : KeyNode → KeyNode) (d : Nat)
    (hgi : ∀ n, (g n).key_id = n.key_id) (hgb : ∀ n, (g n).key_bytes = n.key_bytes)
    (h : c.Inv) :
    KeyChain.Inv { nodes := c.nodes.map g, current := c.current, ctr := c.ctr + d } := by
  obtain ⟨hb, hcur⟩ := h
  constructor
  · intro n hn
    rcases List.mem_map.mp hn with ⟨m, hm, rfl⟩
    have h2 := hb m hm
    rw [hgi m, hgb m]
    simp only
    omega
  · cases hc : c.current with
    | none => exact currentOk_none rfl
    | some kid =>
        rw [currentOk_some (show KeyChain.current _ = some kid from rfl)]
        show ((c.nodes.map g).find? (fun n => n.key_id == kid)).isSome = true
        rw [find_nodes_map_keyid _ _ _ hgi]
        rw [currentOk_some hc] at hcur
        unfold KeyChain.findNode at hcur
        cases hf : c.nodes.find? (fun n => n.key_id == kid) with
        | none => rw [hf] at hcur; simp at hcur
        | some n => simp

theorem inv_ctr_add (c : KeyChain) (d : Nat) (h : c.Inv) :
    KeyChain.Inv { nodes := c.nodes, current := c.current, ctr := c.ctr + d } := by
  obtain ⟨hb, hcur⟩ := h
  refine ⟨fun n hn => ?_, hcur⟩
  have h2 := hb n hn
  simp only
  omega

theorem inv_revoke (c : KeyChain) (kid : Nat) (h : c.Inv) :
    ((c.revoke_key kid).2).Inv := by
  unfold KeyChain.revoke_key
  cases hf : c.findNode kid with
  | none => exact h
  | some n =>
      have := inv_map c
        (fun m => if m.key_id == kid then { m with revoked := true, timestamp := (c.fresh).1 } else m) 1
        (fun m => by by_cases hm : (m.key_id == kid) = true <;> simp [hm])
        (fun m => by by_cases hm : (m.key_id == kid) = true <;> simp [hm]) h
      exact this

theorem inv_loadStep_create (cv : SecureCV) (fv : String × Value) (h : cv.keys.Inv) :
    ((loadStep cv fv cv.keys.create_key).keys).Inv := by
  rw [(loadStep_spec cv fv cv.keys.create_key).1]
  exact inv_map ((cv.keys.create_key).2) _ 1
    (fun m => (nodeMapT_addField (cv.keys.create_key).1.key_id fv.1 m).1)
    (fun m => (nodeMapT_addField (cv.keys.create_key).1.key_id fv.1 m).2.1)
    (inv_create cv.keys h)

theorem inv_loadStep_reuse (cv : SecureCV) (fv : String × Value) (node : KeyNode)
    (h : cv.keys.Inv) :
    ((loadStep cv fv (node, cv.keys)).keys).Inv := by
  rw [(loadStep_spec cv fv (node, cv.keys)).1]
  exact inv_map cv.keys _ 1
    (fun m => (nodeMapT_addField node.key_id fv.1 m).1)
    (fun m => (nodeMapT_addField node.key_id fv.1 m).2.1) h

theorem inv_loadField (mode : String) (cv : SecureCV) (fv : String × Value)
    (h : cv.keys.Inv) :
    ((SecureCV.loadField mode cv fv).keys).Inv := by
  rcases loadField_split mode cv fv with heq | ⟨cur, node, _, _, _, heq⟩
  · rw [heq]; exact inv_loadStep_create cv fv h
  · rw [heq]; exact inv_loadStep_reuse cv fv node h

theorem inv_load_cv (cv : SecureCV) (l : List (String × Value)) (mode : String)
    (h : cv.keys.Inv) :
    ((cv.load_cv l mode).keys).Inv := by
  induction l generalizing cv with
  | nil => exact h
  | cons fv l ih => exact ih (SecureCV.loadField mode cv fv) (inv_loadField mode cv fv h)

/-! ### Counter growth and lookup stability -/

theorem ctr_le_loadField (mode : String) (cv : SecureCV) (fv : String × Value) :
    cv.keys.ctr ≤ ((SecureCV.loadField mode cv fv).keys).ctr := by
  rcases loadField_split mode cv fv with heq | ⟨cur, node, _, _, _, heq⟩
  · rw [heq, (loadStep_spec cv fv cv.keys.create_key).1]
    show cv.keys.ctr ≤ ((cv.keys.create_key).2).ctr + 1
    show cv.keys.ctr ≤ cv.keys.ctr + 3 + 1
    omega
  · rw [heq, (loadStep_spec cv fv (node, cv.keys)).1]
    show cv.keys.ctr ≤ cv.keys.ctr + 1
    omega

theorem ctr_le_load_cv (cv : SecureCV) (l : List (String × Value)) (mode : String) :
    cv.keys.ctr ≤ ((cv.load_cv l mode).keys).ctr := by
  induction l generalizing cv with
  | nil => exact Nat.le_refl _
  | cons fv l ih =>
      exact Nat.le_trans (ctr_le_loadField mode cv fv) (ih (SecureCV.loadField mode cv fv))

theorem loadField_alookup_ne (mode : String) (cv : SecureCV) (fv : String × Value)
    (f : String) (h : f ≠ fv.1) :
    alookup ((SecureCV.loadField mode cv fv).encrypted) f = alookup cv.encrypted f ∧
    alookup ((SecureCV.loadField mode cv fv).field_key_map) f = alookup cv.field_key_map f := by
  rcases loadField_split mode cv fv with heq | ⟨cur, node, _, _, _, heq⟩ <;>
    rw [heq] <;>
    exact ⟨by rw [(loadStep_spec _ _ _).2.1, alookup_aupdate_ne _ _ _ _ h],
           by rw [(loadStep_spec _ _ _).2.2, alookup_aupdate_ne _ _ _ _ h]⟩

theorem load_cv_alookup_not_mem (mode : String) (cv : SecureCV)
    (l : List (String × Value)) (f : String) (h : f ∉ l.map Prod.fst) :
    alookup ((cv.load_cv l mode).encrypted) f = alookup cv.encrypted f ∧
    alookup ((cv.load_cv l mode).field_key_map) f = alookup cv.field_key_map f := by
  induction l generalizing cv with
  | nil => exact ⟨rfl, rfl⟩
  | cons fv l ih =>
      have h1 : f ≠ fv.1 := by
        intro he
        exact h (by simp [he])
      have h2 : f ∉ l.map Prod.fst := fun hm => h (by simp [hm])
      obtain ⟨e1, e2⟩ := ih (SecureCV.loadField mode cv fv) h2
      obtain ⟨e3, e4⟩ := loadField_alookup_ne mode cv fv f h1
      exact ⟨e1.trans e3, e2.trans e4⟩

/-! ### Decryption of honestly produced envelopes -/

theorem decrypt_encrypted_roundtrip (k no : Nat) (v : Value) :
    SecureCV.decrypt
      { nonce := no, ciphertext := { key := k, nonce := no, text := textOf v },
        type := typeName v } k = some (roundtripVal v) := by
  cases v <;>
    simp [SecureCV.decrypt, aesgcmDecrypt, jsonLoadsP, textOf, typeName,
      roundtripVal, PText.toStr, canonSer]

theorem canonSer_roundtripVal (v : Value) : canonSer (roundtripVal v) = canonSer v := by
  cases v <;> simp [roundtripVal, typeName, canonSer, textOf, PText.toStr]

theorem roundtripVal_str (s : String) : roundtripVal (Value.str s) = Value.str s := by
  simp [roundtripVal, typeName, canonSer, textOf, PText.toStr]

theorem roundtripVal_structured (v : Value)
    (h : typeName v = "list" ∨ typeName v = "dict") : roundtripVal v = v := by
  rw [roundtripVal, if_pos h]

/-! ### The binding produced for one loaded field -/

theorem findNode_mapped (c : KeyChain) (g : KeyNode → KeyNode) (cur2 : Option Nat)
    (d : Nat) (hgi : ∀ n, (g n).key_id = n.key_id) {kid : Nat} {n : KeyNode}
    (hf : c.findNode kid = some n) :
    KeyChain.findNode { nodes := c.nodes.map g, current := cur2, ctr := d } kid =
      some (g n) := by
  unfold KeyChain.findNode at hf ⊢
  simp only
  rw [find_nodes_map_keyid _ _ _ hgi, hf]
  rfl

theorem loadField_binding (mode : String) (cv : SecureCV) (fv : String × Value)
    (hInv : cv.keys.Inv) :
    ∃ kid kb no,
      alookup ((SecureCV.loadField mode cv fv).field_key_map) fv.1 = some kid ∧
      alookup ((SecureCV.loadField mode cv fv).encrypted) fv.1 =
        some { nonce := no, ciphertext := { key := kb, nonce := no, text := textOf fv.2 },
               type := typeName fv.2 } ∧
      ∃ n, ((SecureCV.loadField mode cv fv).keys).findNode kid = some n ∧
        n.key_bytes = kb := by
  obtain ⟨hb, _⟩ := hInv
  rcases loadField_split mode cv fv with heq | ⟨cur, node, _, hc, hf, heq⟩
  · refine ⟨cv.keys.ctr, cv.keys.ctr + 1, cv.keys.ctr + 3, ?_, ?_, ?_⟩
    · rw [heq, (loadStep_spec _ _ _).2.2]
      exact alookup_aupdate_self _ _ _
    · rw [heq, (loadStep_spec _ _ _).2.1]
      exact alookup_aupdate_self _ _ _
    · rw [heq, (loadStep_spec _ _ _).1]
      have h1 : ((cv.keys.create_key).2).findNode cv.keys.ctr = some (cv.keys.create_key).1 :=
        findNode_create_new cv.keys (fun n hn => (hb n hn).1)
      exact ⟨_,
        findNode_mapped _ _ _ _
          (fun m => (nodeMapT_addField (cv.keys.create_key).1.key_id fv.1 m).1) h1,
        (nodeMapT_addField (cv.keys.create_key).1.key_id fv.1 (cv.keys.create_key).1).2.1⟩
  · have hkc : node.key_id = cur := by
      have := List.find?_some (show cv.keys.nodes.find? (fun n => n.key_id == cur) = some node from hf)
      simpa using this
    refine ⟨node.key_id, node.key_bytes, cv.keys.ctr, ?_, ?_, ?_⟩
    · rw [heq, (loadStep_spec _ _ _).2.2]
      exact alookup_aupdate_self _ _ _
    · rw [heq, (loadStep_spec _ _ _).2.1]
      exact alookup_aupdate_self _ _ _
    · rw [heq, (loadStep_spec _ _ _).1]
      have hf2 : cv.keys.findNode node.key_id = some node := by
        unfold KeyChain.findNode
        rw [hkc]
        exact hf
      exact ⟨_,
        findNode_mapped _ _ _ _ (fun m => (nodeMapT_addField node.key_id fv.1 m).1) hf2,
        (nodeMapT_addField node.key_id fv.1 node).2.1⟩

/-! ### Claim C1 -/

/-- Claim C1: round-trip at load.  For every field name `f` and value `v` in a
mapping passed to `load_cv` (in either mode), a subsequent
`get_field f k` — with `k` the secret bytes of the key now mapped to `f` in
`field_key_map` — returns a value equal to `v` under the canonical
serialization: strings pass through unchanged, lists and dicts compare equal
after JSON re-parsing. -/
theorem load_cv_roundtrip
    (cv : SecureCV) (input : List (String × Value)) (mode : String)
    (f : String) (v : Value)
    (hInv : cv.keys.Inv) (hnd : (input.map Prod.fst).Nodup)
    (hmem : (f, v) ∈ input) :
    ∃ kid n w,
      alookup ((cv.load_cv input mode).field_key_map) f = some kid ∧
      ((cv.load_cv input mode).keys).get_node kid = some n ∧
      (cv.load_cv input mode).get_field f n.key_bytes = some w ∧
      canonSer w = canonSer v ∧
      (∀ s, v = Value.str s → w = v) ∧
      ((typeName v = "list" ∨ typeName v = "dict") → w = v) := by
  obtain ⟨l1, l2, rfl⟩ := List.append_of_mem hmem
  have hf2 : f ∉ l2.map Prod.fst := by
    have hmap : ((l1 ++ (f, v) :: l2).map Prod.fst) =
        l1.map Prod.fst ++ f :: l2.map Prod.fst := by
      simp
    rw [hmap] at hnd
    exact (List.nodup_cons.mp (hnd.of_append_right)).1
  have hsplit : (cv.load_cv (l1 ++ (f, v) :: l2) mode) =
      ((SecureCV.loadField mode (cv.load_cv l1 mode) (f, v)).load_cv l2 mode) := by
    unfold SecureCV.load_cv
    rw [List.foldl_append]
    rfl
  set cv1 := cv.load_cv l1 mode with hcv1
  set cv2 := SecureCV.loadField mode cv1 (f, v) with hcv2
  have hInv1 : cv1.keys.Inv := inv_load_cv cv l1 mode hInv
  obtain ⟨kid, kb, no, hfkm, henc, n, hfind, hnb⟩ :=
    loadField_binding mode cv1 (f, v) hInv1
  have hstab := load_cv_alookup_not_mem mode cv2 l2 f hf2
  have hev := evolvesT_load_cv cv2 l2 mode
  obtain ⟨n2, hfind2, _, hbytes2, _, _⟩ :=
    evolvesT_find hev (show cv2.keys.nodes.find? (fun m => m.key_id == kid) = some n from hfind)
  rw [hsplit]
  refine ⟨kid, n2, roundtripVal v, ?_, ?_, ?_, canonSer_roundtripVal v, ?_, ?_⟩
  · rw [hstab.2]
    exact hfkm
  · exact hfind2
  · have henc2 : alookup ((cv2.load_cv l2 mode).encrypted) f =
        some { nonce := no, ciphertext := { key := kb, nonce := no, text := textOf v },
               type := typeName v } := by
      rw [hstab.1]
      exact henc
    show SecureCV.get_field _ f n2.key_bytes = _
    unfold SecureCV.get_field
    rw [henc2]
    simp only
    rw [hbytes2, hnb]
    exact decrypt_encrypted_roundtrip kb no v
  · intro s hs
    rw [hs, roundtripVal_str]
  · intro hstruct
    exact roundtripVal_structured v hstruct

/-- Witness for C1: loading a two-field record in `single` mode and reading
back `email` with the secret of its mapped key returns the original value. -/
theorem load_cv_roundtrip_witness :
    SecureCV.init.keys.Inv ∧
    ∃ kid n w,
      alookup ((SecureCV.init.load_cv
        [("name", Value.str "A"), ("email", Value.str "b@x.com")] "single").field_key_map)
        "email" = some kid ∧
      ((SecureCV.init.load_cv
        [("name", Value.str "A"), ("email", Value.str "b@x.com")] "single").keys).get_node kid
        = some n ∧
      (SecureCV.init.load_cv
        [("name", Value.str "A"), ("email", Value.str "b@x.com")] "single").get_field
        "email" n.key_bytes = some w ∧
      canonSer w = canonSer (Value.str "b@x.com") ∧
      (∀ s, Value.str "b@x.com" = Value.str s → w = Value.str "b@x.com") ∧
      ((typeName (Value.str "b@x.com") = "list" ∨ typeName (Value.str "b@x.com") = "dict") →
        w = Value.str "b@x.com") :=
  ⟨by decide,
   load_cv_roundtrip SecureCV.init
     [("name", Value.str "A"), ("email", Value.str "b@x.com")] "single"
     "email" (Value.str "b@x.com") (by decide) (by decide)
     (List.mem_cons_of_mem _ (List.mem_cons_self _ _))⟩

theorem decrypt_encEnv (k no : Nat) (v : Value) :
    SecureCV.decrypt (encEnv k no v) k = some (roundtripVal v) :=
  decrypt_encrypted_roundtrip k no v

theorem honest_decrypt_fixed (e : Envelope) (k : Nat) (w : Value)
    (hh : e.honestB = true) (hd : SecureCV.decrypt e k = some w) :
    roundtripVal w = w := by
  obtain ⟨no, ⟨ck, cn, text⟩, ty⟩ := e
  unfold SecureCV.decrypt aesgcmDecrypt at hd
  by_cases hk : ck = k ∧ cn = no
  · rw [if_pos hk] at hd
    simp only at hd
    cases text with
    | raw s =>
        unfold Envelope.honestB at hh
        simp only [beq_iff_eq] at hh
        rw [hh] at hd
        simp [jsonLoadsP, PText.toStr] at hd
        rw [← hd]
        exact roundtripVal_str s
    | ser v =>
        unfold Envelope.honestB at hh
        simp only [Bool.and_eq_true, beq_iff_eq, bne_iff_ne] at hh
        obtain ⟨hty, hnstr⟩ := hh
        by_cases hsd : typeName v = "list" ∨ typeName v = "dict"
        · rw [hty, if_pos hsd] at hd
          simp [jsonLoadsP] at hd
          rw [← hd]
          exact roundtripVal_structured v hsd
        · rw [hty, if_neg hsd] at hd
          simp [PText.toStr] at hd
          rw [← hd]
          cases v with
          | str s => simp [typeName] at hnstr
          | num n => simp [roundtripVal, typeName, canonSer, textOf, PText.toStr]
          | list vs => exact absurd (Or.inl rfl) hsd
          | dict kvs => exact absurd (Or.inr rfl) hsd
  · rw [if_neg hk] at hd
    simp at hd

/-! ### Claim C2 -/

/-- Claim C2: rotation invalidates the old key for the rotated field.  For a
field `f` encrypted under key `K1` with secret `s1`, if `rotate_field_key f`
succeeds returning new key id `K2` with secret `s2`, then afterwards
`get_field f s1` returns no value and `get_field f s2` returns the field's
original plaintext value (what `get_field f s1` returned before). -/
theorem rotate_invalidates_old_key
    (cv : SecureCV) (f : String) (env : Envelope) (K1 s1 : Nat)
    (hInv : cv.keys.Inv)
    (henc : alookup cv.encrypted f = some env)
    (hhon : env.honestB = true)
    (hmap : alookup cv.field_key_map f = some K1)
    (hs1 : cv.keys.get_key_bytes K1 = some s1)
    (hdec : (SecureCV.decrypt env s1).isSome = true) :
    ∃ K2 cv2 s2, cv.rotate_field_key f = (some K2, cv2) ∧
      (cv2.keys).get_key_bytes K2 = some s2 ∧
      cv2.get_field f s1 = none ∧
      cv2.get_field f s2 = cv.get_field f s1 := by
  obtain ⟨w, hw⟩ := Option.isSome_iff_exists.mp hdec
  have hs1lt : s1 < cv.keys.ctr := by
    have hs1b := hs1
    unfold KeyChain.get_key_bytes at hs1b
    cases hfn : cv.keys.findNode K1 with
    | none => rw [hfn] at hs1b; simp at hs1b
    | some node =>
        simp only [hfn] at hs1b
        by_cases hrev : node.revoked = false
        · rw [if_pos hrev] at hs1b
          have hmem := List.mem_of_find?_eq_some
            (show cv.keys.nodes.find? (fun n => n.key_id == K1) = some node from hfn)
          have hlt := (hInv.1 node hmem).2
          injection hs1b with hs1e
          omega
        · rw [if_neg hrev] at hs1b; simp at hs1b
  have hrot : cv.rotate_field_key f =
      (some (cv.keys.create_key).1.key_id,
       { keys :=
           { nodes := (((cv.keys.create_key).2).nodes).map
               (rotMap K1 (cv.keys.create_key).1.key_id f),
             current := ((cv.keys.create_key).2).current,
             ctr := ((cv.keys.create_key).2).ctr + 1 },
         encrypted := aupdate cv.encrypted f
           (encEnv (cv.keys.create_key).1.key_bytes ((cv.keys.create_key).2).ctr w),
         field_key_map := aupdate cv.field_key_map f (cv.keys.create_key).1.key_id }) := by
    unfold SecureCV.rotate_field_key
    simp only [henc, hmap, hs1, hw]
    rfl
  refine ⟨(cv.keys.create_key).1.key_id, _, (cv.keys.create_key).1.key_bytes,
    hrot, ?_, ?_, ?_⟩
  · have h1 : ((cv.keys.create_key).2).findNode (cv.keys.create_key).1.key_id
        = some (cv.keys.create_key).1 :=
      findNode_create_new cv.keys (fun n hn => (hInv.1 n hn).1)
    have h2 := findNode_mapped ((cv.keys.create_key).2)
      (rotMap K1 (cv.keys.create_key).1.key_id f)
      ((cv.keys.create_key).2).current (((cv.keys.create_key).2).ctr + 1)
      (fun m => (nodeMapT_rotateBookkeeping K1 (cv.keys.create_key).1.key_id f m).1) h1
    show KeyChain.get_key_bytes _ _ = _
    unfold KeyChain.get_key_bytes
    rw [h2]
    simp only
    rw [if_pos]
    · rw [show (rotMap K1 (cv.keys.create_key).1.key_id f (cv.keys.create_key).1).key_bytes
          = ((cv.keys.create_key).1).key_bytes from
            (nodeMapT_rotateBookkeeping K1 (cv.keys.create_key).1.key_id f
              (cv.keys.create_key).1).2.1]
    · rw [show (rotMap K1 (cv.keys.create_key).1.key_id f (cv.keys.create_key).1).revoked
          = ((cv.keys.create_key).1).revoked from
            (nodeMapT_rotateBookkeeping K1 (cv.keys.create_key).1.key_id f
              (cv.keys.create_key).1).2.2.2]
      rfl
  · show SecureCV.get_field _ f s1 = none
    unfold SecureCV.get_field
    rw [show alookup (aupdate cv.encrypted f
        (encEnv (cv.keys.create_key).1.key_bytes ((cv.keys.create_key).2).ctr w)) f
      = some (encEnv (cv.keys.create_key).1.key_bytes ((cv.keys.create_key).2).ctr w)
      from alookup_aupdate_self _ _ _]
    simp only
    unfold SecureCV.decrypt aesgcmDecrypt encEnv
    rw [if_neg]
    intro hcon
    have h1 : (cv.keys.create_key).1.key_bytes = s1 := hcon.1
    have h2 : (cv.keys.create_key).1.key_bytes = cv.keys.ctr + 1 := rfl
    omega
  · show SecureCV.get_field _ f (cv.keys.create_key).1.key_bytes = cv.get_field f s1
    unfold SecureCV.get_field
    rw [show alookup (aupdate cv.encrypted f
        (encEnv (cv.keys.create_key).1.key_bytes ((cv.keys.create_key).2).ctr w)) f
      = some (encEnv (cv.keys.create_key).1.key_bytes ((cv.keys.create_key).2).ctr w)
      from alookup_aupdate_self _ _ _]
    rw [henc]
    simp only
    rw [decrypt_encEnv, hw, honest_decrypt_fixed env s1 w hhon hw]

/-! ### Claim C3 -/

/-- Claim C3: rotation is atomic with respect to errors.  `rotate_field_key f`
fails (returns no new key id) exactly when `f` is not an encrypted field, or
the key id mapped to `f` is unknown or revoked in the registry, or AEAD
decryption of `f`'s stored envelope fails; and whenever it fails, the state —
ciphertexts, field-to-key mapping, every key record and the registry — is
completely unchanged.  (The hypothesis is the field→key consistency
invariant: every encrypted field has a mapped key id; without it the source
raises `KeyError`, equally without mutating anything.) -/
theorem rotate_atomic
    (cv : SecureCV) (f : String)
    (hdom : ∀ env, alookup cv.encrypted f = some env →
      (alookup cv.field_key_map f).isSome = true) :
    ((cv.rotate_field_key f).1 = none ↔
      alookup cv.encrypted f = none ∨
      (∃ env kid, alookup cv.encrypted f = some env ∧
        alookup cv.field_key_map f = some kid ∧
        (cv.keys.get_key_bytes kid = none ∨
         ∃ k, cv.keys.get_key_bytes kid = some k ∧ SecureCV.decrypt env k = none))) ∧
    ((cv.rotate_field_key f).1 = none → (cv.rotate_field_key f).2 = cv) := by
  cases h1 : alookup cv.encrypted f with
  | none =>
      have hr : cv.rotate_field_key f = (none, cv) := by
        unfold SecureCV.rotate_field_key
        simp only [h1]
      rw [hr]
      exact ⟨by simp [h1], fun _ => rfl⟩
  | some env =>
      cases h2 : alookup cv.field_key_map f with
      | none =>
          have := hdom env h1
          rw [h2] at this
          simp at this
      | some kid =>
          cases h3 : cv.keys.get_key_bytes kid with
          | none =>
              have hr : cv.rotate_field_key f = (none, cv) := by
                unfold SecureCV.rotate_field_key
                simp only [h1, h2, h3]
              rw [hr]
              refine ⟨⟨fun _ => Or.inr ⟨env, kid, rfl, rfl, Or.inl h3⟩, fun _ => rfl⟩,
                fun _ => rfl⟩
          | some k =>
              cases h4 : SecureCV.decrypt env k with
              | none =>
                  have hr : cv.rotate_field_key f = (none, cv) := by
                    unfold SecureCV.rotate_field_key
                    simp only [h1, h2, h3, h4]
                  rw [hr]
                  refine ⟨⟨fun _ => Or.inr ⟨env, kid, rfl, rfl, Or.inr ⟨k, h3, h4⟩⟩,
                    fun _ => rfl⟩, fun _ => rfl⟩
              | some w =>
                  have hr1 : (cv.rotate_field_key f).1 =
                      some (cv.keys.create_key).1.key_id := by
                    unfold SecureCV.rotate_field_key
                    simp only [h1, h2, h3, h4]
                  constructor
                  · rw [hr1]
                    constructor
                    · intro hcon
                      exact Option.noConfusion hcon
                    · intro hrhs
                      exfalso
                      rcases hrhs with hnone | ⟨env2, kid2, he2, hk2, hbad⟩
                      · exact Option.noConfusion hnone
                      · injection he2 with he2e
                        injection hk2 with hk2e
                        subst he2e
                        subst hk2e
                        rcases hbad with hb1 | ⟨k2, hk3, hd2⟩
                        · rw [h3] at hb1
                          exact Option.noConfusion hb1
                        · rw [h3] at hk3
                          injection hk3 with hk3e
                          subst hk3e
                          rw [h4] at hd2
                          exact Option.noConfusion hd2
                  · intro hcon
                    rw [hr1] at hcon
                    exact Option.noConfusion hcon

/-! ### Claim C4 -/

/-- Claim C4: rotation locality.  After a successful `rotate_field_key f`
that replaced key `K1`, for every other field `g ≠ f` the stored envelope of
`g` and `field_key_map[g]` are unchanged — in particular `get_field g k` is
unchanged for every candidate key `k`, so `g` still decrypts under
`secret_of K1` exactly as before — and `K1`'s record keeps its secret bytes,
revoked flag and timestamp: only its protected-field bookkeeping loses
`f`. -/
theorem rotate_locality
    (cv : SecureCV) (f : String) (K2 : Nat) (cv2 : SecureCV)
    (hrot : cv.rotate_field_key f = (some K2, cv2))
    (g : String) (hg : g ≠ f)
    (K1 : Nat) (hmap : alookup cv.field_key_map f = some K1)
    (n1 : KeyNode) (hn1 : cv.keys.get_node K1 = some n1) :
    alookup cv2.encrypted g = alookup cv.encrypted g ∧
    alookup cv2.field_key_map g = alookup cv.field_key_map g ∧
    (∀ k, cv2.get_field g k = cv.get_field g k) ∧
    ∃ n1b, cv2.keys.get_node K1 = some n1b ∧
      n1b.key_bytes = n1.key_bytes ∧ n1b.revoked = n1.revoked ∧
      n1b.timestamp = n1.timestamp ∧
      n1b.encrypted_fields = n1.encrypted_fields.filter (fun x => !(x == f)) := by
  cases h1 : alookup cv.encrypted f with
  | none =>
      have hr : cv.rotate_field_key f = (none, cv) := by
        unfold SecureCV.rotate_field_key
        simp only [h1]
      rw [hr] at hrot
      simp at hrot
  | some env =>
      cases h3 : cv.keys.get_key_bytes K1 with
      | none =>
          have hr : cv.rotate_field_key f = (none, cv) := by
            unfold SecureCV.rotate_field_key
            simp only [h1, hmap, h3]
          rw [hr] at hrot
          simp at hrot
      | some k =>
          cases h4 : SecureCV.decrypt env k with
          | none =>
              have hr : cv.rotate_field_key f = (none, cv) := by
                unfold SecureCV.rotate_field_key
                simp only [h1, hmap, h3, h4]
              rw [hr] at hrot
              simp at hrot
          | some w =>
              have hr : cv.rotate_field_key f =
                  (some (cv.keys.create_key).1.key_id,
                   { keys :=
                       { nodes := (((cv.keys.create_key).2).nodes).map
                           (rotMap K1 (cv.keys.create_key).1.key_id f),
                         current := ((cv.keys.create_key).2).current,
                         ctr := ((cv.keys.create_key).2).ctr + 1 },
                     encrypted := aupdate cv.encrypted f
                       (encEnv (cv.keys.create_key).1.key_bytes
                         ((cv.keys.create_key).2).ctr w),
                     field_key_map :=
                       aupdate cv.field_key_map f (cv.keys.create_key).1.key_id }) := by
                unfold SecureCV.rotate_field_key
                simp only [h1, hmap, h3, h4]
                rfl
              rw [hr] at hrot
              have hcv2 : cv2 =
                  { keys :=
                      { nodes := (((cv.keys.create_key).2).nodes).map
                          (rotMap K1 (cv.keys.create_key).1.key_id f),
                        current := ((cv.keys.create_key).2).current,
                        ctr := ((cv.keys.create_key).2).ctr + 1 },
                    encrypted := aupdate cv.encrypted f
                      (encEnv (cv.keys.create_key).1.key_bytes
                        ((cv.keys.create_key).2).ctr w),
                    field_key_map :=
                      aupdate cv.field_key_map f (cv.keys.create_key).1.key_id } := by
                have := congrArg Prod.snd hrot
                exact this.symm
              subst hcv2
              have henc : ∀ gg, gg ≠ f → alookup
                  (aupdate cv.encrypted f
                    (encEnv (cv.keys.create_key).1.key_bytes
                      ((cv.keys.create_key).2).ctr w)) gg = alookup cv.encrypted gg :=
                fun gg hgg => alookup_aupdate_ne _ _ _ _ hgg
              refine ⟨henc g hg, alookup_aupdate_ne _ _ _ _ hg, ?_, ?_⟩
              · intro k2
                show SecureCV.get_field _ g k2 = cv.get_field g k2
                unfold SecureCV.get_field
                rw [henc g hg]
              · have hn1e : cv.keys.nodes.find? (fun n => n.key_id == K1) = some n1 := hn1
                have hn1f : ((cv.keys.create_key).2).findNode K1 = some n1 := by
                  unfold KeyChain.findNode
                  rw [create_key_nodes, List.find?_append, hn1e]
                  rfl
                have h2 := findNode_mapped ((cv.keys.create_key).2)
                  (rotMap K1 (cv.keys.create_key).1.key_id f)
                  ((cv.keys.create_key).2).current (((cv.keys.create_key).2).ctr + 1)
                  (fun m => (nodeMapT_rotateBookkeeping K1 (cv.keys.create_key).1.key_id f m).1)
                  hn1f
                refine ⟨rotMap K1 (cv.keys.create_key).1.key_id f n1, h2, ?_, ?_, ?_, ?_⟩
                · exact (nodeMapT_rotateBookkeeping K1 (cv.keys.create_key).1.key_id f n1).2.1
                · exact (nodeMapT_rotateBookkeeping K1 (cv.keys.create_key).1.key_id f n1).2.2.2
                · exact (nodeMapT_rotateBookkeeping K1 (cv.keys.create_key).1.key_id f n1).2.2.1
                · have hid : n1.key_id = K1 := by
                    have := List.find?_some hn1e
                    simpa using this
                  unfold rotMap
                  rw [if_pos (by simpa using hid)]


/-- Witness for C2 at a concrete state: rotating `"a"` in `cvExample`. -/
theorem rotate_invalidates_old_key_witness :
    ∃ K2 cv2 s2, cvExample.rotate_field_key "a" = (some K2, cv2) ∧
      (cv2.keys).get_key_bytes K2 = some s2 ∧
      cv2.get_field "a" 1 = none ∧
      cv2.get_field "a" s2 = cvExample.get_field "a" 1 :=
  rotate_invalidates_old_key cvExample "a" envExample 0 1
    (by decide) rfl rfl rfl rfl rfl

/-- Witness for C3 at a concrete state: rotating a missing field on a fresh
vault fails with the state unchanged. -/
theorem rotate_atomic_witness :
    ((SecureCV.init.rotate_field_key "a").1 = none ↔
      alookup SecureCV.init.encrypted "a" = none ∨
      (∃ env kid, alookup SecureCV.init.encrypted "a" = some env ∧
        alookup SecureCV.init.field_key_map "a" = some kid ∧
        (SecureCV.init.keys.get_key_bytes kid = none ∨
         ∃ k, SecureCV.init.keys.get_key_bytes kid = some k ∧
           SecureCV.decrypt env k = none))) ∧
    ((SecureCV.init.rotate_field_key "a").1 = none →
      (SecureCV.init.rotate_field_key "a").2 = SecureCV.init) :=
  rotate_atomic SecureCV.init "a" (fun env h => Option.noConfusion h)

/-- Witness for C4 at a concrete state: rotating `"a"` in a vault also
holding `"b"` leaves `"b"` and the old key's material untouched. -/
theorem rotate_locality_witness :
    alookup ((cvExample2.rotate_field_key "a").2).encrypted "b" =
      alookup cvExample2.encrypted "b" ∧
    alookup ((cvExample2.rotate_field_key "a").2).field_key_map "b" =
      alookup cvExample2.field_key_map "b" ∧
    (∀ k, ((cvExample2.rotate_field_key "a").2).get_field "b" k =
      cvExample2.get_field "b" k) ∧
    ∃ n1b, ((cvExample2.rotate_field_key "a").2).keys.get_node 0 = some n1b ∧
      n1b.key_bytes = nodeExample.key_bytes ∧ n1b.revoked = nodeExample.revoked ∧
      n1b.timestamp = nodeExample.timestamp ∧
      n1b.encrypted_fields = nodeExample.encrypted_fields.filter (fun x => !(x == "a")) :=
  rotate_locality cvExample2 "a" 5 ((cvExample2.rotate_field_key "a").2) rfl
    "b" (by decide) 0 rfl nodeExample rfl

theorem findNode_revoke (c : KeyChain) (kid k : Nat) :
    ((c.revoke_key kid).2).findNode k =
      (c.findNode k).map (fun n => if n.key_id == kid then
        { n with revoked := true, timestamp := c.ctr } else n) := by
  unfold KeyChain.revoke_key
  cases hf : c.findNode kid with
  | none =>
      simp only [hf]
      cases hk : c.findNode k with
      | none => rfl
      | some n =>
          have hmem := List.mem_of_find?_eq_some
            (show c.nodes.find? (fun m => m.key_id == k) = some n from hk)
          have hnid : (n.key_id == kid) = false := by
            have := List.find?_eq_none.mp
              (show c.nodes.find? (fun m => m.key_id == kid) = none from hf) n hmem
            simpa using this
          have hne : ¬ n.key_id = kid := by simpa using hnid
          simp [hnid, hne]
  | some m =>
      simp only [hf]
      show KeyChain.findNode _ k = _
      unfold KeyChain.findNode
      simp only
      rw [find_nodes_map_keyid _ _ _
        (fun n => by by_cases hn : (n.key_id == kid) = true <;> simp [hn])]
      rfl

theorem findNode_revoke_self (c : KeyChain) (kid : Nat) (n : KeyNode)
    (hf : c.findNode kid = some n) :
    ((c.revoke_key kid).2).findNode kid =
      some { n with revoked := true, timestamp := c.ctr } := by
  rw [findNode_revoke, hf]
  have hid : (n.key_id == kid) = true := by
    have := List.find?_some (show c.nodes.find? (fun m => m.key_id == kid) = some n from hf)
    simpa using this
  show some (if (n.key_id == kid) = true then
    { n with revoked := true, timestamp := c.ctr } else n) = _
  rw [if_pos hid]

theorem findNode_revoke_other (c : KeyChain) (kid k : Nat) (hk : k ≠ kid) :
    ((c.revoke_key kid).2).findNode k = c.findNode k := by
  rw [findNode_revoke]
  cases hf : c.findNode k with
  | none => rfl
  | some n =>
      have hid : n.key_id = k := by
        have := List.find?_some (show c.nodes.find? (fun m => m.key_id == k) = some n from hf)
        simpa using this
      have hfalse : (n.key_id == kid) = false := by
        simp [hid, hk]
      show some (if (n.key_id == kid) = true then
        { n with revoked := true, timestamp := c.ctr } else n) = some n
      rw [if_neg (by simp [hfalse])]

theorem revoke_success (c : KeyChain) (kid : Nat) (n : KeyNode)
    (h : c.findNode kid = some n) : (c.revoke_key kid).1 = true := by
  unfold KeyChain.revoke_key
  simp only [h]

theorem revoke_current (c : KeyChain) (kid : Nat) :
    ((c.revoke_key kid).2).current = c.current := by
  unfold KeyChain.revoke_key
  cases hf : c.findNode kid with
  | none => rfl
  | some n => rfl

theorem get_key_bytes_none_applyOps (cv : SecureCV) (kid : Nat) (n : KeyNode)
    (hf : cv.keys.findNode kid = some n) (hrev : n.revoked = true) (ops : List Op) :
    ((applyOps cv ops).keys).get_key_bytes kid = none := by
  obtain ⟨n2, hf2, _, _, hrev2⟩ := evolves_find (evolves_applyOps cv ops) hf
  unfold KeyChain.get_key_bytes
  rw [show ((applyOps cv ops).keys).findNode kid = some n2 from hf2]
  simp only
  rw [if_neg]
  simp [hrev2 hrev]

/-! ### Claim C5 -/

/-- Claim C5 (amended): revocation semantics.  For every key id present in
the registry, `revoke` reports success; afterwards `get_key_bytes` returns
absent — and keeps doing so after any further sequence of operations, with
the same absent result as for an unknown id — while `get_node` still returns
the record with `revoked = true`.  Revoking an already-revoked id is again a
success and changes nothing further APART from refreshing that record's
timestamp to the new revocation time (the amendment forced by
`revoke_idempotent_counterexample`: source line 66 overwrites
`node.timestamp` on every revoke).  Revoking an unknown id reports
`not_found` and leaves the registry unchanged. -/
theorem revoke_semantics (c : KeyChain) (kid : Nat) (n : KeyNode)
    (h : c.findNode kid = some n) :
    (c.revoke_key kid).1 = true ∧
    ((c.revoke_key kid).2).get_key_bytes kid = none ∧
    (∀ enc fkm ops,
      ((applyOps { keys := (c.revoke_key kid).2, encrypted := enc, field_key_map := fkm }
        ops).keys).get_key_bytes kid = none) ∧
    (∃ n2, ((c.revoke_key kid).2).get_node kid = some n2 ∧ n2.revoked = true) ∧
    ((((c.revoke_key kid).2).revoke_key kid).1 = true ∧
     ((((c.revoke_key kid).2).revoke_key kid).2).current = ((c.revoke_key kid).2).current ∧
     (∀ k2, k2 ≠ kid → ((((c.revoke_key kid).2).revoke_key kid).2).findNode k2 =
        ((c.revoke_key kid).2).findNode k2) ∧
     (∃ n2 n3, ((c.revoke_key kid).2).findNode kid = some n2 ∧
        ((((c.revoke_key kid).2).revoke_key kid).2).findNode kid = some n3 ∧
        n3.key_id = n2.key_id ∧ n3.key_bytes = n2.key_bytes ∧
        n3.encrypted_fields = n2.encrypted_fields ∧
        n2.revoked = true ∧ n3.revoked = true)) ∧
    (∀ kid2, c.findNode kid2 = none → c.revoke_key kid2 = (false, c)) := by
  have hsucc : (c.revoke_key kid).1 = true := revoke_success c kid n h
  have hself := findNode_revoke_self c kid n h
  have hsucc2 : (((c.revoke_key kid).2).revoke_key kid).1 = true :=
    revoke_success ((c.revoke_key kid).2) kid _ hself
  have hself2 := findNode_revoke_self ((c.revoke_key kid).2) kid _ hself
  refine ⟨hsucc, ?_, ?_, ?_, ⟨hsucc2, ?_, ?_, ?_⟩, ?_⟩
  · unfold KeyChain.get_key_bytes
    rw [hself]
    simp
  · intro enc fkm ops
    exact get_key_bytes_none_applyOps
      { keys := (c.revoke_key kid).2, encrypted := enc, field_key_map := fkm }
      kid _ hself rfl ops
  · exact ⟨_, hself, rfl⟩
  · exact revoke_current ((c.revoke_key kid).2) kid
  · intro k2 hk2
    exact findNode_revoke_other ((c.revoke_key kid).2) kid k2 hk2
  · exact ⟨_, _, hself, hself2, rfl, rfl, rfl, rfl, rfl⟩
  · intro kid2 h2
    unfold KeyChain.revoke_key
    simp only [h2]

/-- Counterexample to C5 as written: revoking an already-revoked key reports
success but is not a no-op — the record's timestamp changes again. -/
theorem revoke_idempotent_counterexample :
    ((((cvExample.keys).revoke_key 0).2).revoke_key 0).1 = true ∧
    (((((cvExample.keys).revoke_key 0).2).revoke_key 0).2) ≠
      ((cvExample.keys).revoke_key 0).2 ∧
    ((((((cvExample.keys).revoke_key 0).2).revoke_key 0).2).findNode 0).map
        KeyNode.timestamp ≠
      ((((cvExample.keys).revoke_key 0).2).findNode 0).map KeyNode.timestamp := by
  decide

/-- Witness for C5 at a concrete registry. -/
theorem revoke_semantics_witness :
    (cvExample.keys.revoke_key 0).1 = true ∧
    ((cvExample.keys.revoke_key 0).2).get_key_bytes 0 = none ∧
    (∀ enc fkm ops,
      ((applyOps
        { keys := (cvExample.keys.revoke_key 0).2, encrypted := enc, field_key_map := fkm }
        ops).keys).get_key_bytes 0 = none) ∧
    (∃ n2, ((cvExample.keys.revoke_key 0).2).get_node 0 = some n2 ∧ n2.revoked = true) ∧
    ((((cvExample.keys.revoke_key 0).2).revoke_key 0).1 = true ∧
     ((((cvExample.keys.revoke_key 0).2).revoke_key 0).2).current =
       ((cvExample.keys.revoke_key 0).2).current ∧
     (∀ k2, k2 ≠ 0 → ((((cvExample.keys.revoke_key 0).2).revoke_key 0).2).findNode k2 =
        ((cvExample.keys.revoke_key 0).2).findNode k2) ∧
     (∃ n2 n3, ((cvExample.keys.revoke_key 0).2).findNode 0 = some n2 ∧
        ((((cvExample.keys.revoke_key 0).2).revoke_key 0).2).findNode 0 = some n3 ∧
        n3.key_id = n2.key_id ∧ n3.key_bytes = n2.key_bytes ∧
        n3.encrypted_fields = n2.encrypted_fields ∧
        n2.revoked = true ∧ n3.revoked = true)) ∧
    (∀ kid2, cvExample.keys.findNode kid2 = none →
      cvExample.keys.revoke_key kid2 = (false, cvExample.keys)) :=
  revoke_semantics cvExample.keys 0
    { key_id := 0, key_bytes := 1, timestamp := 2, revoked := false,
      encrypted_fields := ["a"] } rfl

/-! ### Claim C8 -/

/-- Counterexample to C8 as written: `revoke_key` overwrites the record's
creation timestamp with the revocation time (source line 66), so the
timestamp is not immutable after creation. -/
theorem created_at_immutable_counterexample :
    ((((cvExample.keys).revoke_key 0).2).findNode 0).map KeyNode.timestamp ≠
      ((cvExample.keys).findNode 0).map KeyNode.timestamp := by
  decide

/-- Claim C8 (amended): a `KeyNode`'s timestamp is assigned at creation and
modified afterwards only by `revoke_key` of that same key (which sets it to
the revocation time); every other registry or vault operation leaves it
unchanged. -/
theorem timestamp_frame (cv : SecureCV) (kid : Nat) (n : KeyNode) (op : Op)
    (hf : cv.keys.findNode kid = some n)
    (hop : op ≠ Op.revokeKey kid) :
    ∃ n2, ((applyOp cv op).keys).findNode kid = some n2 ∧
      n2.timestamp = n.timestamp := by
  cases op with
  | createKey =>
      obtain ⟨n2, hf2, _, _, ht, _⟩ := evolvesT_find (evolvesT_create cv.keys)
        (show cv.keys.nodes.find? (fun m => m.key_id == kid) = some n from hf)
      exact ⟨n2, hf2, ht⟩
  | revokeKey kid2 =>
      have hne : kid ≠ kid2 := fun he => hop (by rw [he])
      rw [show ((applyOp cv (Op.revokeKey kid2)).keys) =
        ((cv.keys.revoke_key kid2).2) from rfl]
      rw [findNode_revoke_other cv.keys kid2 kid hne]
      exact ⟨n, hf, rfl⟩
  | loadCv d m =>
      obtain ⟨n2, hf2, _, _, ht, _⟩ := evolvesT_find (evolvesT_load_cv cv d m)
        (show cv.keys.nodes.find? (fun m2 => m2.key_id == kid) = some n from hf)
      exact ⟨n2, hf2, ht⟩
  | rotateFieldKey f =>
      obtain ⟨n2, hf2, _, _, ht, _⟩ := evolvesT_find (evolvesT_rotate cv f)
        (show cv.keys.nodes.find? (fun m => m.key_id == kid) = some n from hf)
      exact ⟨n2, hf2, ht⟩

/-- Witness for C8 (amended) at a concrete state. -/
theorem timestamp_frame_witness :
    ∃ n2, ((applyOp cvExample Op.createKey).keys).findNode 0 = some n2 ∧
      n2.timestamp = nodeExampleA.timestamp :=
  timestamp_frame cvExample 0 nodeExampleA Op.createKey rfl
    (fun h => Op.noConfusion h)

/-! ### Claim C9 -/

/-- Claim C9: revocation does not re-protect existing data.  `revoke_key`
never touches the vault's stored envelopes or `field_key_map`, nor any key's
secret bytes; records of other keys are fully unchanged and the revoked
record keeps its id, secret bytes and protected-field set (only its
`revoked` flag and timestamp change); consequently `get_field` with any
already-held key bytes returns exactly what it returned before
revocation. -/
theorem revoke_does_not_reprotect (cv : SecureCV) (kid : Nat) :
    (applyOp cv (Op.revokeKey kid)).encrypted = cv.encrypted ∧
    (applyOp cv (Op.revokeKey kid)).field_key_map = cv.field_key_map ∧
    (∀ k, (((applyOp cv (Op.revokeKey kid)).keys).findNode k).map KeyNode.key_bytes =
      (cv.keys.findNode k).map KeyNode.key_bytes) ∧
    (∀ k2, k2 ≠ kid → ((applyOp cv (Op.revokeKey kid)).keys).findNode k2 =
      cv.keys.findNode k2) ∧
    ((((applyOp cv (Op.revokeKey kid)).keys).findNode kid).map
        (fun m => (m.key_id, m.key_bytes, m.encrypted_fields)) =
      ((cv.keys.findNode kid).map
        (fun m => (m.key_id, m.key_bytes, m.encrypted_fields)))) ∧
    (∀ f s, (applyOp cv (Op.revokeKey kid)).get_field f s = cv.get_field f s) := by
  refine ⟨rfl, rfl, ?_, ?_, ?_, fun f s => rfl⟩
  · intro k
    rw [show ((applyOp cv (Op.revokeKey kid)).keys) = (cv.keys.revoke_key kid).2 from rfl,
        findNode_revoke]
    cases cv.keys.findNode k with
    | none => rfl
    | some m => by_cases hm : m.key_id = kid <;> simp [hm]
  · intro k2 hk2
    exact findNode_revoke_other cv.keys kid k2 hk2
  · rw [show ((applyOp cv (Op.revokeKey kid)).keys) = (cv.keys.revoke_key kid).2 from rfl,
        findNode_revoke]
    cases cv.keys.findNode kid with
    | none => rfl
    | some m => by_cases hm : m.key_id = kid <;> simp [hm]

/-! ### Claim C10 -/

/-- Claim C10: single-mode load ignores revocation of the current key.  When
the registry has a current key — even one already revoked — `load_cv` in
`single` mode reuses that key's secret for every field of the input, maps
every field to its id, and neither creates a fresh key (the registry's id
sequence is unchanged) nor fails. -/
theorem single_mode_ignores_revocation
    (cv : SecureCV) (input : List (String × Value)) (kid : Nat) (n : KeyNode)
    (hcur : cv.keys.current = some kid)
    (hfind : cv.keys.findNode kid = some n)
    (hrev : n.revoked = true) :
    ((cv.load_cv input "single").keys).current = some kid ∧
    ((cv.load_cv input "single").keys).nodes.map KeyNode.key_id =
      cv.keys.nodes.map KeyNode.key_id ∧
    (∀ fv, fv ∈ input →
      alookup ((cv.load_cv input "single").field_key_map) fv.1 = some kid ∧
      ∃ env, alookup ((cv.load_cv input "single").encrypted) fv.1 = some env ∧
        env.ciphertext.key = n.key_bytes) := by
  induction input generalizing cv n with
  | nil => exact ⟨hcur, rfl, fun fv hfv => absurd hfv (List.not_mem_nil fv)⟩
  | cons fv0 rest ih =>
      have hkidn : n.key_id = kid := by
        have := List.find?_some
          (show cv.keys.nodes.find? (fun m => m.key_id == kid) = some n from hfind)
        simpa using this
      have hstep : SecureCV.loadField "single" cv fv0 = loadStep cv fv0 (n, cv.keys) :=
        loadField_eq_reuse cv fv0 (by decide) hcur hfind
      have hload : (cv.load_cv (fv0 :: rest) "single") =
          ((loadStep cv fv0 (n, cv.keys)).load_cv rest "single") := by
        show ((SecureCV.loadField "single" cv fv0).load_cv rest "single") = _
        rw [hstep]
      have hkeys1 : (loadStep cv fv0 (n, cv.keys)).keys =
          { nodes := cv.keys.nodes.map (fun m =>
              if m.key_id == n.key_id then
                { m with encrypted_fields := insertField fv0.1 m.encrypted_fields }
              else m),
            current := cv.keys.current, ctr := cv.keys.ctr + 1 } :=
        (loadStep_spec cv fv0 (n, cv.keys)).1
      have hcur1 : (loadStep cv fv0 (n, cv.keys)).keys.current = some kid := by
        rw [hkeys1]
        exact hcur
      have hfind1 : (loadStep cv fv0 (n, cv.keys)).keys.findNode kid =
          some ((fun m => if m.key_id == n.key_id then
            { m with encrypted_fields := insertField fv0.1 m.encrypted_fields }
            else m) n) := by
        rw [hkeys1]
        exact findNode_mapped cv.keys _ cv.keys.current (cv.keys.ctr + 1)
          (fun m => (nodeMapT_addField n.key_id fv0.1 m).1) hfind
      have hbytes1 : ((fun m => if m.key_id == n.key_id then
          { m with encrypted_fields := insertField fv0.1 m.encrypted_fields }
          else m) n).key_bytes = n.key_bytes :=
        (nodeMapT_addField n.key_id fv0.1 n).2.1
      have hrev1 : ((fun m => if m.key_id == n.key_id then
          { m with encrypted_fields := insertField fv0.1 m.encrypted_fields }
          else m) n).revoked = true := by
        rw [(nodeMapT_addField n.key_id fv0.1 n).2.2.2]
        exact hrev
      obtain ⟨ihcur, ihids, ihall⟩ :=
        ih (loadStep cv fv0 (n, cv.keys)) _ hcur1 hfind1 hrev1
      rw [hload]
      refine ⟨ihcur, ?_, ?_⟩
      · rw [ihids, hkeys1]
        show (cv.keys.nodes.map _).map KeyNode.key_id = _
        rw [List.map_map]
        congr 1
        funext m
        exact (nodeMapT_addField n.key_id fv0.1 m).1
      · intro fv hfv
        rcases List.mem_cons.mp hfv with hfv0 | hrest
        · subst hfv0
          by_cases hin : fv.1 ∈ rest.map Prod.fst
          · obtain ⟨p, hp, hpe⟩ := List.mem_map.mp hin
            obtain ⟨hm1, env, hm2, hm3⟩ := ihall p hp
            rw [hpe] at hm1 hm2
            exact ⟨hm1, env, hm2, by rw [hm3, hbytes1]⟩
          · obtain ⟨hs1, hs2⟩ :=
              load_cv_alookup_not_mem "single" (loadStep cv fv (n, cv.keys)) rest fv.1 hin
            refine ⟨?_, ?_⟩
            · rw [hs2, (loadStep_spec cv fv (n, cv.keys)).2.2, hkidn]
              exact alookup_aupdate_self _ _ _
            · refine ⟨encEnv n.key_bytes cv.keys.ctr fv.2, ?_, rfl⟩
              rw [hs1, (loadStep_spec cv fv (n, cv.keys)).2.1]
              exact alookup_aupdate_self _ _ _
        · obtain ⟨hm1, env, hm2, hm3⟩ := ihall fv hrest
          exact ⟨hm1, env, hm2, by rw [hm3, hbytes1]⟩

/-- Witness for C10: loading after revoking the only (current) key still
encrypts under it. -/
theorem single_mode_ignores_revocation_witness :
    ((cvRevExample.load_cv [("b", Value.str "y")] "single").keys).current = some 0 ∧
    ((cvRevExample.load_cv [("b", Value.str "y")] "single").keys).nodes.map
      KeyNode.key_id = cvRevExample.keys.nodes.map KeyNode.key_id ∧
    (∀ fv, fv ∈ [("b", Value.str "y")] →
      alookup ((cvRevExample.load_cv [("b", Value.str "y")] "single").field_key_map)
        fv.1 = some 0 ∧
      ∃ env, alookup ((cvRevExample.load_cv [("b", Value.str "y")] "single").encrypted)
        fv.1 = some env ∧ env.ciphertext.key = nodeRevExample.key_bytes) :=
  single_mode_ignores_revocation cvRevExample [("b", Value.str "y")] 0
    nodeRevExample rfl rfl rfl

/-! ### Claim C6 -/

/-- Claim C6: uniform decryption failure.  Whenever AEAD authentication fails
in `decrypt` or `get_field` — the supplied secret is not the key the stored
ciphertext was produced under, the ciphertext is not one produced under that
key and nonce (any tampered, truncated or garbled ciphertext), or the stored
nonce was altered — the caller receives exactly the same `none` result, with
no partial plaintext and nothing distinguishing the cause. -/
theorem uniform_decryption_failure
    (env : Envelope) (key : Nat)
    (h : env.ciphertext.key ≠ key ∨ env.ciphertext.nonce ≠ env.nonce) :
    SecureCV.decrypt env key = none ∧
    (∀ no2, no2 ≠ env.ciphertext.nonce →
      SecureCV.decrypt { env with nonce := no2 } key = none) ∧
    (∀ cv : SecureCV, ∀ f, alookup cv.encrypted f = some env →
      cv.get_field f key = none) := by
  have hd : SecureCV.decrypt env key = none := by
    unfold SecureCV.decrypt aesgcmDecrypt
    rw [if_neg (fun hc => h.elim (fun h1 => h1 hc.1) (fun h1 => h1 hc.2))]
  refine ⟨hd, ?_, ?_⟩
  · intro no2 hno2
    unfold SecureCV.decrypt aesgcmDecrypt
    rw [if_neg (fun hc => hno2 hc.2.symm)]
  · intro cv f henc
    unfold SecureCV.get_field
    rw [henc]
    exact hd

/-- Witness for C6: the stored envelope of `cvExample` fails uniformly under
a wrong key. -/
theorem uniform_decryption_failure_witness :
    SecureCV.decrypt envExample 0 = none ∧
    (∀ no2, no2 ≠ envExample.ciphertext.nonce →
      SecureCV.decrypt { envExample with nonce := no2 } 0 = none) ∧
    (∀ cv : SecureCV, ∀ f, alookup cv.encrypted f = some envExample →
      cv.get_field f 0 = none) :=
  uniform_decryption_failure envExample 0 (Or.inl (by decide))

theorem loadField_multi_assign (cv : SecureCV) (fv : String × Value) :
    alookup ((SecureCV.loadField "multi" cv fv).field_key_map) fv.1 =
      some cv.keys.ctr ∧
    cv.keys.ctr < ((SecureCV.loadField "multi" cv fv).keys).ctr := by
  rw [loadField_eq_multi]
  constructor
  · rw [(loadStep_spec _ _ _).2.2]
    exact alookup_aupdate_self _ _ _
  · rw [(loadStep_spec _ _ _).1]
    show cv.keys.ctr < ((cv.keys.create_key).2).ctr + 1
    show cv.keys.ctr < cv.keys.ctr + 3 + 1
    omega

theorem load_multi_fresh (cv : SecureCV) (l : List (String × Value)) (f : String)
    (h : f ∈ l.map Prod.fst) :
    ∃ kid, alookup ((cv.load_cv l "multi").field_key_map) f = some kid ∧
      cv.keys.ctr ≤ kid := by
  induction l generalizing cv with
  | nil => simp at h
  | cons fv rest ih =>
      by_cases hin : f ∈ rest.map Prod.fst
      · obtain ⟨kid, hk, hle⟩ := ih (SecureCV.loadField "multi" cv fv) hin
        exact ⟨kid, hk, Nat.le_trans (ctr_le_loadField "multi" cv fv) hle⟩
      · have hf : f = fv.1 := by
          rcases List.mem_cons.mp h with he | hm
          · exact he
          · exact absurd hm hin
        obtain ⟨ha, _⟩ := loadField_multi_assign cv fv
        have hstab :=
          (load_cv_alookup_not_mem "multi" (SecureCV.loadField "multi" cv fv) rest f hin).2
        refine ⟨cv.keys.ctr, ?_, Nat.le_refl _⟩
        show alookup ((SecureCV.loadField "multi" cv fv).load_cv rest
          "multi").field_key_map f = _
        rw [hstab, hf]
        exact ha

/-! ### Claim C7 -/

/-- Claim C7: multi-mode isolation.  Loading a mapping in `multi` mode
creates a fresh key per field, so any two distinct fields of that load are
mapped to distinct key ids in `field_key_map`. -/
theorem multi_mode_isolation
    (cv : SecureCV) (input : List (String × Value)) (f1 f2 : String)
    (hnd : (input.map Prod.fst).Nodup)
    (h1 : f1 ∈ input.map Prod.fst) (h2 : f2 ∈ input.map Prod.fst) (hne : f1 ≠ f2) :
    ∃ k1 k2, alookup ((cv.load_cv input "multi").field_key_map) f1 = some k1 ∧
      alookup ((cv.load_cv input "multi").field_key_map) f2 = some k2 ∧ k1 ≠ k2 := by
  induction input generalizing cv with
  | nil => simp at h1
  | cons fv rest ih =>
      rcases List.mem_cons.mp h1 with he1 | hm1
      · have hm2 : f2 ∈ rest.map Prod.fst := by
          rcases List.mem_cons.mp h2 with he2 | hm2
          · exact absurd (he1.trans he2.symm) hne
          · exact hm2
        have hnotin : f1 ∉ rest.map Prod.fst := by
          rw [he1]
          exact (List.nodup_cons.mp hnd).1
        obtain ⟨ha, hlt⟩ := loadField_multi_assign cv fv
        have hstab :=
          (load_cv_alookup_not_mem "multi" (SecureCV.loadField "multi" cv fv) rest
            f1 hnotin).2
        obtain ⟨k2, hk2, hge⟩ := load_multi_fresh (SecureCV.loadField "multi" cv fv) rest
          f2 hm2
        refine ⟨cv.keys.ctr, k2, ?_, hk2, ?_⟩
        · show alookup ((SecureCV.loadField "multi" cv fv).load_cv rest
            "multi").field_key_map f1 = _
          rw [hstab, he1]
          exact ha
        · omega
      · rcases List.mem_cons.mp h2 with he2 | hm2
        · have hnotin : f2 ∉ rest.map Prod.fst := by
            rw [he2]
            exact (List.nodup_cons.mp hnd).1
          obtain ⟨ha, hlt⟩ := loadField_multi_assign cv fv
          have hstab :=
            (load_cv_alookup_not_mem "multi" (SecureCV.loadField "multi" cv fv) rest
              f2 hnotin).2
          obtain ⟨k1, hk1, hge⟩ := load_multi_fresh (SecureCV.loadField "multi" cv fv)
            rest f1 hm1
          refine ⟨k1, cv.keys.ctr, hk1, ?_, ?_⟩
          · show alookup ((SecureCV.loadField "multi" cv fv).load_cv rest
              "multi").field_key_map f2 = _
            rw [hstab, he2]
            exact ha
          · omega
        · exact ih (SecureCV.loadField "multi" cv fv)
            (List.nodup_cons.mp hnd).2 hm1 hm2

/-- Witness for C7 at a concrete two-field load. -/
theorem multi_mode_isolation_witness :
    ∃ k1 k2,
      alookup ((SecureCV.init.load_cv
        [("name", Value.str "A"), ("email", Value.str "b@x.com")] "multi").field_key_map)
        "name" = some k1 ∧
      alookup ((SecureCV.init.load_cv
        [("name", Value.str "A"), ("email", Value.str "b@x.com")] "multi").field_key_map)
        "email" = some k2 ∧ k1 ≠ k2 :=
  multi_mode_isolation SecureCV.init
    [("name", Value.str "A"), ("email", Value.str "b@x.com")] "name" "email"
    (by decide) (by decide) (by decide) (by decide)
